import Mathlib

/-!
# Verification of the VelocityDRIVE-SP host protocol stack

Shallow embedding of the protocol core of the repository:

* `MUP1` — the MUP1 framer `MUP1Protocol` of `src/js/velocitydrive-protocol.js`
  (emission with escape sequences, the ASCII-hex checksum, and the incremental
  parser state machine);
* `CC` — the CoAP message encoder/decoder `CoapClient` of `src/js/coap-client.js`;
* `ACoap` — the advanced CoAP engine `AdvancedCoAPClient` of
  `src/js/coap-advanced.js` (response correlation, retransmission,
  block-wise reassembly);
* `CBORY` — the CBOR/YANG-SID codec `CBORYANGCodec`.

Machine integers are modelled as `Nat` (or `Int` where JavaScript can produce
negative values), with `% 256`, `% 65536`, … at the points where the source
masks (`& 0xFF`, `& 0xFFFF`, `Uint8Array` truncation).  JavaScript's
`x >> k & 0xFF` on a non-negative 32-bit quantity equals `x / 2^k % 256`,
which is the form used throughout.  Fallible code (JavaScript `throw`) is
modelled with `Option`.
-/

namespace MUP1

/-- `MUP1_SOF = 0x3E`, start of frame (`>`). -/
def MUP1_SOF : Nat := 0x3E
/-- `MUP1_EOF = 0x3C`, end of frame (`<`). -/
def MUP1_EOF : Nat := 0x3C
/-- `MUP1_ESC = 0x5C`, escape character (`\`). -/
def MUP1_ESC : Nat := 0x5C
/-- `MUP1_00 = 0x30`, escape sequence tail for `0x00`. -/
def MUP1_00 : Nat := 0x30
/-- `MUP1_FF = 0x46`, escape sequence tail for `0xFF`. -/
def MUP1_FF : Nat := 0x46

/-- The per-byte `switch` of `MUP1Protocol.encodeData`: escape `SOF`, `EOF`,
`ESC` as `ESC b`, `0x00` as `ESC 0x30`, `0xFF` as `ESC 0x46`; all other bytes
pass through. -/
def escapeByte (b : Nat) : List Nat :=
  if b = MUP1_SOF ∨ b = MUP1_EOF ∨ b = MUP1_ESC then [MUP1_ESC, b]
  else if b = 0x00 then [MUP1_ESC, MUP1_00]
  else if b = 0xFF then [MUP1_ESC, MUP1_FF]
  else [b]

/-- `MUP1Protocol.encodeData`: apply `escapeByte` to every byte. -/
def encodeData : List Nat → List Nat
  | [] => []
  | b :: rest => escapeByte b ++ encodeData rest

/-- The running 16-bit sum of `MUP1Protocol.calculateChecksum`:
`sum = (sum + byte) & 0xFFFF` over all bytes. -/
def checksumSum (l : List Nat) : Nat := l.foldl (fun s b => (s + b) % 65536) 0

/-- One uppercase hex digit as its ASCII code (`0`–`9`, `A`–`F`). -/
def hexDigit (n : Nat) : Nat := if n < 10 then 48 + n else 55 + n

/-- `MUP1Protocol.encodeNibble`: a byte `b < 256` as two uppercase ASCII hex
characters (`b.toString(16).toUpperCase().padStart(2, '0')`). -/
def encodeNibble (b : Nat) : List Nat := [hexDigit (b / 16), hexDigit (b % 16)]

/-- `MUP1Protocol.calculateChecksum`: the masked byte sum, split into high and
low byte (`(sum >> 8) & 0xFF`, `sum & 0xFF`) and rendered in ASCII hex. -/
def calculateChecksum (l : List Nat) : List Nat :=
  let sum := checksumSum l
  encodeNibble (sum / 256 % 256) ++ encodeNibble (sum % 256)

/-- The frame built by `MUP1Protocol.createFrame` before the checksum is
appended: `SOF`, type, escaped data, one `EOF`, and a second `EOF` when the
*escaped* data length is even. -/
def createFrameBody (ty : Nat) (dat : List Nat) : List Nat :=
  let encodedData := encodeData dat
  [MUP1_SOF, ty] ++ encodedData ++ [MUP1_EOF] ++
    (if encodedData.length % 2 = 0 then [MUP1_EOF] else [])

/-- `MUP1Protocol.createFrame`: frame body followed by
`calculateChecksum` of the body. -/
def createFrame (ty : Nat) (dat : List Nat) : List Nat :=
  createFrameBody ty dat ++ calculateChecksum (createFrameBody ty dat)

/-- Parser states of `MUP1Protocol.parseStateMachine`.  `other` stands for the
unknown state strings the source can assign (e.g. `chk5` when the checksum
array was longer than 3); in such a state the `switch` matches no case and the
parser is stuck. -/
inductive MState where
  | init | sof | dat | esc | eof2 | chk0 | chk1 | chk2 | chk3 | other
deriving DecidableEq, Repr

/-- A delivered MUP1 frame: `{type, data, checksum}`. -/
structure Frame where
  ty : Nat
  dat : List Nat
  checksum : List Nat
deriving DecidableEq, Repr

/-- The mutable parser fields of `MUP1Protocol`. -/
structure ParserState where
  state : MState
  mup1Data : List Nat
  mup1Type : Nat
  checksum : List Nat
deriving DecidableEq, Repr

/-- The parser fields as initialised by the `MUP1Protocol` constructor. -/
def initState : ParserState := ⟨.init, [], 0, []⟩

/-- The state string `` `chk${n}` `` assigned after pushing a checksum
character (`n` is 1, 2 or 3 on every reachable path). -/
def chkStateFor (n : Nat) : MState :=
  if n = 1 then .chk1 else if n = 2 then .chk2 else if n = 3 then .chk3
  else .other

/-- `MUP1Protocol.parseStateMachine`: one byte of input, returning the new
parser fields and the delivered frame, if any.  Mirrors the source `switch`
case by case, including the missing checksum verification: on the fourth
checksum character the frame is returned unconditionally. -/
def parseStateMachine (ps : ParserState) (c : Nat) : ParserState × Option Frame :=
  match ps.state with
  | .init =>
    if c = MUP1_SOF then
      ({ state := .sof, mup1Data := [], mup1Type := 0, checksum := [] }, none)
    else (ps, none)
  | .sof => ({ ps with mup1Type := c, state := .dat }, none)
  | .dat =>
    if ps.mup1Data.length > 1024 then ({ ps with state := .init }, none)
    else if c = MUP1_ESC then ({ ps with state := .esc }, none)
    else if c = MUP1_EOF then
      if ps.mup1Data.length % 2 ≠ 0 then ({ ps with state := .chk0 }, none)
      else ({ ps with state := .eof2 }, none)
    else if c = MUP1_SOF ∨ c = 0x00 ∨ c = 0xFF then
      ({ ps with state := .init }, none)
    else ({ ps with mup1Data := ps.mup1Data ++ [c] }, none)
  | .esc =>
    if c = MUP1_SOF ∨ c = MUP1_ESC ∨ c = MUP1_EOF then
      ({ ps with state := .dat, mup1Data := ps.mup1Data ++ [c] }, none)
    else if c = MUP1_00 then
      ({ ps with state := .dat, mup1Data := ps.mup1Data ++ [0x00] }, none)
    else if c = MUP1_FF then
      ({ ps with state := .dat, mup1Data := ps.mup1Data ++ [0xFF] }, none)
    else ({ ps with state := .init }, none)
  | .eof2 =>
    if c = MUP1_EOF then ({ ps with state := .chk0 }, none)
    else ({ ps with state := .init }, none)
  | .chk0 | .chk1 | .chk2 | .chk3 =>
    let cks := ps.checksum ++ [c]
    if cks.length = 4 then
      ({ ps with state := .init, checksum := cks },
       some ⟨ps.mup1Type, ps.mup1Data, cks⟩)
    else ({ ps with state := chkStateFor cks.length, checksum := cks }, none)
  | .other => (ps, none)

/-- `MUP1Protocol.parseData`: feed a byte slice through the state machine,
collecting the delivered frames. -/
def parseData (ps : ParserState) : List Nat → ParserState × List Frame
  | [] => (ps, [])
  | c :: rest =>
    ((parseData (parseStateMachine ps c).1 rest).1,
     (parseStateMachine ps c).2.toList ++ (parseData (parseStateMachine ps c).1 rest).2)

/-- Bytes that `encodeData` escapes (equivalently: bytes the parser's `data`
state does not accept verbatim). -/
def isSpecial (b : Nat) : Bool :=
  b == MUP1_SOF || b == MUP1_EOF || b == MUP1_ESC || b == 0x00 || b == 0xFF

theorem parseData_append (ps : ParserState) (xs ys : List Nat) :
    parseData ps (xs ++ ys) =
      ((parseData (parseData ps xs).1 ys).1,
       (parseData ps xs).2 ++ (parseData (parseData ps xs).1 ys).2) := by
  induction xs generalizing ps with
  | nil => simp [parseData]
  | cons c rest ih => simp [parseData, ih, List.append_assoc]

theorem encodeData_append (xs ys : List Nat) :
    encodeData (xs ++ ys) = encodeData xs ++ encodeData ys := by
  induction xs with
  | nil => simp [encodeData]
  | cons b rest ih => simp [encodeData, ih]

theorem escapeByte_length (b : Nat) :
    (escapeByte b).length = if isSpecial b then 2 else 1 := by
  simp only [escapeByte, isSpecial, MUP1_SOF, MUP1_EOF, MUP1_ESC, MUP1_00, MUP1_FF]
  by_cases h1 : b = 62 <;> by_cases h2 : b = 60 <;> by_cases h3 : b = 92 <;>
    by_cases h4 : b = 0 <;> by_cases h5 : b = 255 <;> simp_all

theorem encodeData_length (l : List Nat) :
    (encodeData l).length = l.length + l.countP isSpecial := by
  induction l with
  | nil => simp [encodeData]
  | cons b rest ih =>
    simp only [encodeData, List.length_append, escapeByte_length, ih,
      List.countP_cons, List.length_cons]
    cases hs : isSpecial b <;> simp [hs] <;> omega

/-- Feeding the escaped form of a single byte to the parser in the `data`
state appends exactly that byte to the accumulated frame data. -/
theorem parseData_escapeByte (b : Nat) (acc : List Nat) (ty : Nat)
    (cks : List Nat) (hacc : ¬ acc.length > 1024) :
    parseData ⟨.dat, acc, ty, cks⟩ (escapeByte b) =
      (⟨.dat, acc ++ [b], ty, cks⟩, []) := by
  by_cases h1 : b = 62
  · subst h1
    simp [escapeByte, parseData, parseStateMachine, MUP1_SOF, MUP1_EOF, MUP1_ESC,
      MUP1_00, MUP1_FF, hacc]
  by_cases h2 : b = 60
  · subst h2
    simp [escapeByte, parseData, parseStateMachine, MUP1_SOF, MUP1_EOF, MUP1_ESC,
      MUP1_00, MUP1_FF, hacc]
  by_cases h3 : b = 92
  · subst h3
    simp [escapeByte, parseData, parseStateMachine, MUP1_SOF, MUP1_EOF, MUP1_ESC,
      MUP1_00, MUP1_FF, hacc]
  by_cases h4 : b = 0
  · subst h4
    simp [escapeByte, parseData, parseStateMachine, MUP1_SOF, MUP1_EOF, MUP1_ESC,
      MUP1_00, MUP1_FF, hacc]
  by_cases h5 : b = 255
  · subst h5
    simp [escapeByte, parseData, parseStateMachine, MUP1_SOF, MUP1_EOF, MUP1_ESC,
      MUP1_00, MUP1_FF, hacc]
  · simp [escapeByte, parseData, parseStateMachine, MUP1_SOF, MUP1_EOF, MUP1_ESC,
      MUP1_00, MUP1_FF, hacc, h1, h2, h3, h4, h5]

/-- Feeding the escaped form of `dat` to the parser in the `data` state
appends exactly `dat` to the accumulated frame data (no frame is emitted, no
error path is taken), provided the final accumulated length stays within the
1 KiB bound checked by the source. -/
theorem parseData_encodeData (dat : List Nat) (acc : List Nat) (ty : Nat)
    (cks : List Nat) (hlen : acc.length + dat.length ≤ 1024) :
    parseData ⟨.dat, acc, ty, cks⟩ (encodeData dat) =
      (⟨.dat, acc ++ dat, ty, cks⟩, []) := by
  induction dat generalizing acc with
  | nil => simp [encodeData, parseData]
  | cons b rest ih =>
    rw [List.length_cons] at hlen
    have hacc : ¬ acc.length > 1024 := by omega
    have hlen' : (acc ++ [b]).length + rest.length ≤ 1024 := by
      rw [List.length_append, List.length_singleton]; omega
    have hstep := parseData_escapeByte b acc ty cks hacc
    calc parseData ⟨.dat, acc, ty, cks⟩ (encodeData (b :: rest))
        = parseData ⟨.dat, acc, ty, cks⟩ (escapeByte b ++ encodeData rest) := rfl
      _ = (⟨.dat, acc ++ b :: rest, ty, cks⟩, []) := by
          rw [parseData_append, hstep]
          simp only []
          rw [ih (acc ++ [b]) hlen']
          simp [List.append_assoc]

/-- Collecting four checksum characters from state `chk0` delivers exactly
one frame carrying the accumulated type and data. -/
theorem parseData_chk (dat : List Nat) (ty : Nat) (c1 c2 c3 c4 : Nat) :
    parseData ⟨.chk0, dat, ty, []⟩ [c1, c2, c3, c4] =
      (⟨.init, dat, ty, [c1, c2, c3, c4]⟩, [⟨ty, dat, [c1, c2, c3, c4]⟩]) := by
  simp [parseData, parseStateMachine, chkStateFor]

theorem calculateChecksum_explicit (l : List Nat) :
    calculateChecksum l =
      [hexDigit (checksumSum l / 256 % 256 / 16), hexDigit (checksumSum l / 256 % 256 % 16),
       hexDigit (checksumSum l % 256 / 16), hexDigit (checksumSum l % 256 % 16)] := rfl

/-- C1 (amended).  A frame emitted by `createFrame`, fed back to the
incremental parser, is delivered as exactly one frame with the same type and
payload, and its checksum field is exactly the checksum the emitter computed
over the frame body — provided the payload is at most 1024 bytes (the
parser's 1 KiB cutoff) and contains an *even* number of escape-needing bytes
(the emitter chooses single/double EOF by the parity of the *escaped* length,
the parser by the parity of the *unescaped* length; these agree exactly when
the number of escaped bytes is even). -/
theorem mup1_frame_roundtrip (ty : Nat) (payload : List Nat)
    (hbytes : ∀ b ∈ payload, b < 256)
    (hlen : payload.length ≤ 1024)
    (hpar : payload.countP isSpecial % 2 = 0) :
    (parseData initState (createFrame ty payload)).2 =
      [⟨ty, payload, calculateChecksum (createFrameBody ty payload)⟩] := by
  clear hbytes
  set body := createFrameBody ty payload with hbody
  set enc := encodeData payload with henc
  have hencpar : enc.length % 2 = payload.length % 2 := by
    rw [henc, encodeData_length]; omega
  have hcks := calculateChecksum_explicit body
  set c1 := hexDigit (checksumSum body / 256 % 256 / 16)
  set c2 := hexDigit (checksumSum body / 256 % 256 % 16)
  set c3 := hexDigit (checksumSum body % 256 / 16)
  set c4 := hexDigit (checksumSum body % 256 % 16)
  have hnotbig : ¬ payload.length > 1024 := by omega
  have hhead : parseData initState [MUP1_SOF, ty] = (⟨.dat, [], ty, []⟩, []) := by
    simp [parseData, parseStateMachine, initState, MUP1_SOF]
  have hdata : parseData ⟨.dat, [], ty, []⟩ enc = (⟨.dat, payload, ty, []⟩, []) := by
    have := parseData_encodeData payload [] ty [] (by simpa using hlen)
    simpa [henc] using this
  rcases Nat.mod_two_eq_zero_or_one payload.length with hp | hp
  · -- even payload: even escaped length, double EOF emitted, parser goes
    -- data → eof2 → chk0
    have heofs : body = [MUP1_SOF, ty] ++ enc ++ [MUP1_EOF, MUP1_EOF] := by
      rw [hbody, createFrameBody, ← henc, if_pos (by omega : enc.length % 2 = 0)]
      simp
    have htail : parseData ⟨.dat, payload, ty, []⟩ ([MUP1_EOF, MUP1_EOF] ++ [c1, c2, c3, c4]) =
        (⟨.init, payload, ty, [c1, c2, c3, c4]⟩, [⟨ty, payload, [c1, c2, c3, c4]⟩]) := by
      have h1 : parseData ⟨.dat, payload, ty, []⟩ [MUP1_EOF, MUP1_EOF] =
          (⟨.chk0, payload, ty, []⟩, []) := by
        simp [parseData, parseStateMachine, MUP1_EOF, MUP1_ESC, MUP1_SOF, hnotbig, hp]
      rw [parseData_append, h1]
      simpa using parseData_chk payload ty c1 c2 c3 c4
    have : createFrame ty payload =
        [MUP1_SOF, ty] ++ (enc ++ ([MUP1_EOF, MUP1_EOF] ++ [c1, c2, c3, c4])) := by
      rw [createFrame, ← hbody, hcks, heofs]; simp
    rw [this, parseData_append, hhead]
    simp only [List.nil_append]
    rw [parseData_append, hdata]
    simp only [List.nil_append]
    rw [htail]
    simp [← hcks]
  · -- odd payload: odd escaped length, single EOF, parser goes data → chk0
    have heofs : body = [MUP1_SOF, ty] ++ enc ++ [MUP1_EOF] := by
      rw [hbody, createFrameBody, ← henc, if_neg (by omega : ¬ enc.length % 2 = 0)]
      simp
    have htail : parseData ⟨.dat, payload, ty, []⟩ ([MUP1_EOF] ++ [c1, c2, c3, c4]) =
        (⟨.init, payload, ty, [c1, c2, c3, c4]⟩, [⟨ty, payload, [c1, c2, c3, c4]⟩]) := by
      have h1 : parseData ⟨.dat, payload, ty, []⟩ [MUP1_EOF] =
          (⟨.chk0, payload, ty, []⟩, []) := by
        simp [parseData, parseStateMachine, MUP1_EOF, MUP1_ESC, MUP1_SOF, hnotbig, hp]
      rw [parseData_append, h1]
      simpa using parseData_chk payload ty c1 c2 c3 c4
    have : createFrame ty payload =
        [MUP1_SOF, ty] ++ (enc ++ ([MUP1_EOF] ++ [c1, c2, c3, c4])) := by
      rw [createFrame, ← hbody, hcks, heofs]; simp
    rw [this, parseData_append, hhead]
    simp only [List.nil_append]
    rw [parseData_append, hdata]
    simp only [List.nil_append]
    rw [htail]
    simp [← hcks]

/-- Witness for `mup1_frame_roundtrip` at type `C` (0x43), payload `[1, 2]`. -/
theorem mup1_frame_roundtrip_witness :
    (parseData initState (createFrame 0x43 [1, 2])).2 =
      [⟨0x43, [1, 2], calculateChecksum (createFrameBody 0x43 [1, 2])⟩] :=
  mup1_frame_roundtrip 0x43 [1, 2] (by decide) (by decide) (by decide)

/-- C1 (counterexample).  The payload `[0x00, 0x01]` — two bytes, well inside
the claimed 0..2048 range — round-trips to *no* frame at all: its single
escape makes the escaped length odd, the emitter sends one EOF, the parser
(seeing an even unescaped length) demands a second EOF and abandons the
frame. -/
theorem mup1_roundtrip_cex :
    (parseData initState (createFrame 0x43 [0x00, 0x01])).2 = [] := by decide

/-- Fold the carry of a 16-bit one's-complement accumulator once. -/
def foldCarry (t : Nat) : Nat := t % 65536 + t / 65536

/-- The checksum the SPEC mandates (for comparison with the source's
`calculateChecksum`): sum all bytes, fold the carry in twice, then take the
16-bit one's complement. -/
def specOnesComplementSum (l : List Nat) : Nat :=
  65535 - foldCarry (foldCarry l.sum)

/-- Four uppercase ASCII hex digits of a 16-bit value, big-endian nibble
order. -/
def hex4 (n : Nat) : List Nat :=
  [hexDigit (n / 4096 % 16), hexDigit (n / 256 % 16),
   hexDigit (n / 16 % 16), hexDigit (n % 16)]

/-- The checksum rendering the SPEC mandates. -/
def specOnesComplementChecksum (l : List Nat) : List Nat :=
  hex4 (specOnesComplementSum l)

theorem checksumSum_foldl (l : List Nat) :
    ∀ s : Nat, l.foldl (fun a b => (a + b) % 65536) (s % 65536) = (s + l.sum) % 65536 := by
  induction l with
  | nil => intro s; simp
  | cons b t ih =>
    intro s
    simp only [List.foldl_cons, List.sum_cons]
    rw [Nat.mod_add_mod, ih (s + b)]
    ring_nf

theorem checksumSum_eq_sum_mod (l : List Nat) : checksumSum l = l.sum % 65536 := by
  have := checksumSum_foldl l 0
  simpa [checksumSum] using this

theorem calculateChecksum_eq_hex4 (l : List Nat) :
    calculateChecksum l = hex4 (l.sum % 65536) := by
  rw [calculateChecksum_explicit]
  have hs : checksumSum l = l.sum % 65536 := checksumSum_eq_sum_mod l
  set s := l.sum % 65536 with hsEq
  have hlt : s < 65536 := Nat.mod_lt _ (by norm_num)
  rw [hs]
  simp only [hex4]
  congr 1
  · congr 1; omega
  congr 1
  · congr 1; omega
  congr 1
  · congr 1; omega
  congr 1
  congr 1
  omega

/-- C2 (amended).  The four characters that `createFrame` appends are the
**plain** 16-bit sum (mod 2^16) of every emitted byte from SOF through the
EOF(s) inclusive — no end-around carry, no one's complement — rendered as
four uppercase ASCII hex digits in big-endian nibble order. -/
theorem mup1_checksum_plain_sum (ty : Nat) (dat : List Nat) :
    createFrame ty dat =
      createFrameBody ty dat ++ hex4 ((createFrameBody ty dat).sum % 65536) := by
  rw [createFrame, calculateChecksum_eq_hex4]

/-- C2 (counterexample).  On the ping frame body `3E 50 3C 3C` the source
appends `"0106"` (the plain sum 0x0106), while the one's-complement rule the
claim states yields `"FEF9"`. -/
theorem mup1_checksum_cex :
    createFrame 0x50 [] = [0x3E, 0x50, 0x3C, 0x3C, 48, 49, 48, 54] ∧
    specOnesComplementChecksum [0x3E, 0x50, 0x3C, 0x3C] = [70, 69, 70, 57] ∧
    ([48, 49, 48, 54] : List Nat) ≠ [70, 69, 70, 57] := by decide

/-- C3 (code bug).  The frame `3E 50 3C 3C` followed by the WRONG checksum
characters `"0000"` is still delivered by the parser (the source pushes the
four characters and returns the frame without ever comparing them to the
host-computed value `"0106"`), where the claim requires it to be discarded
and counted. -/
theorem mup1_mismatched_checksum_delivered :
    (parseData initState [0x3E, 0x50, 0x3C, 0x3C, 0x30, 0x30, 0x30, 0x30]).2 =
      [⟨0x50, [], [0x30, 0x30, 0x30, 0x30]⟩] ∧
    calculateChecksum [0x3E, 0x50, 0x3C, 0x3C] ≠ [0x30, 0x30, 0x30, 0x30] := by
  decide

end MUP1

namespace CC

/-- A CoAP option `{number, value}` as used by `CoapClient`. -/
structure COption where
  number : Nat
  value : List Nat
deriving DecidableEq, Repr

/-- Insert an option into an already sorted list, after all entries with the
same or a smaller number.  Folding this over the input list is the unique
stable sort by option number, which is what the source's
`options.sort((a, b) => a.number - b.number)` (a stable `Array.prototype.sort`
with this comparator) produces. -/
def insertByNumber (o : COption) : List COption → List COption
  | [] => [o]
  | x :: xs => if o.number < x.number then o :: x :: xs else x :: insertByNumber o xs

/-- The stable sort by option number performed by `CoapClient.createMessage`. -/
def sortOptions (l : List COption) : List COption :=
  l.foldl (fun acc o => insertByNumber o acc) []

/-- The delta/length nibble encoding of `CoapClient.createMessage`: the
4-bit nibble together with its extension bytes
(13 = 1-byte `x-13`, 14 = 2-byte `x-269` big-endian). -/
def encNib (x : Nat) : Nat × List Nat :=
  if x < 13 then (x, [])
  else if x < 269 then (13, [x - 13])
  else (14, [(x - 269) / 256, (x - 269) % 256])

/-- One encoded option of `CoapClient.createMessage`: the header byte
`(deltaNibble << 4) | lengthNibble`, extension bytes, then the value. -/
def encodeOption (delta : Nat) (value : List Nat) : List Nat :=
  ((encNib delta).1 * 16 + (encNib value.length).1) ::
    ((encNib delta).2 ++ ((encNib value.length).2 ++ value))

/-- The option section of `CoapClient.createMessage`: each option encoded
with the delta from the previous option's number. -/
def encodeOptionsFrom (prev : Nat) : List COption → List Nat
  | [] => []
  | o :: rest => encodeOption (o.number - prev) o.value ++ encodeOptionsFrom o.number rest

/-- `CoapClient.createMessage` before the `Uint8Array` conversion: header
byte `(VERSION << 6) | (type << 4) | tokenLength` (written additively; the
fields are disjoint for `type < 4`, `tokenLength < 16`), code, 2-byte message
id, token, sorted options, and `0xFF` + payload when the payload is non-empty
(`payload !== null && payload.length > 0`).  The message id is passed as the
value the source's internal counter takes for this message. -/
def createMessageRaw (ty code mid : Nat) (token : List Nat) (options : List COption)
    (payload : Option (List Nat)) : List Nat :=
  [64 + ty * 16 + token.length, code, mid / 256 % 256, mid % 256] ++
    (token ++
      (encodeOptionsFrom 0 (sortOptions options) ++
        (match payload with
         | some p => if p.length > 0 then 0xFF :: p else []
         | none => [])))

/-- `CoapClient.createMessage` returns `new Uint8Array(message)`, which
truncates every entry mod 256. -/
def createMessage (ty code mid : Nat) (token : List Nat) (options : List COption)
    (payload : Option (List Nat)) : List Nat :=
  (createMessageRaw ty code mid token options payload).map (· % 256)

/-- The delta/length decoding of `CoapClient.parseMessage` for a nibble that
is not 15: read the extension bytes and return the decoded value with the
remaining bytes.  (Reads past the end of the message — JavaScript
`undefined` — are modelled as 0; the parser is only ever applied to encoder
output in the theorems below.) -/
def decodeNibExt (nib : Nat) (bytes : List Nat) : Nat × List Nat :=
  if nib = 13 then (bytes.getD 0 0 + 13, bytes.drop 1)
  else if nib = 14 then ((bytes.getD 0 0) * 256 + bytes.getD 1 0 + 269, bytes.drop 2)
  else (nib, bytes)

/-- The option `while` loop of `CoapClient.parseMessage`: stops at the end of
the data or at a `0xFF` payload marker; a delta or length nibble of 15
breaks out of the loop (leaving the bytes consumed so far consumed).  The
fuel argument bounds the iteration count; each iteration consumes at least
one byte, so fuel = input length always suffices. -/
def parseOptionsLoop : Nat → Nat → List Nat → List COption × List Nat
  | _, _, [] => ([], [])
  | 0, _, data => ([], data)
  | fuel + 1, prev, ob :: rest =>
    if ob = 0xFF then ([], ob :: rest)
    else if ob / 16 % 16 = 15 then ([], rest)
    else if ob % 16 = 15 then ([], (decodeNibExt (ob / 16 % 16) rest).2)
    else
      (⟨prev + (decodeNibExt (ob / 16 % 16) rest).1,
        ((decodeNibExt (ob % 16) (decodeNibExt (ob / 16 % 16) rest).2).2).take
          (decodeNibExt (ob % 16) (decodeNibExt (ob / 16 % 16) rest).2).1⟩ ::
        (parseOptionsLoop fuel (prev + (decodeNibExt (ob / 16 % 16) rest).1)
          (((decodeNibExt (ob % 16) (decodeNibExt (ob / 16 % 16) rest).2).2).drop
            (decodeNibExt (ob % 16) (decodeNibExt (ob / 16 % 16) rest).2).1)).1,
       (parseOptionsLoop fuel (prev + (decodeNibExt (ob / 16 % 16) rest).1)
          (((decodeNibExt (ob % 16) (decodeNibExt (ob / 16 % 16) rest).2).2).drop
            (decodeNibExt (ob % 16) (decodeNibExt (ob / 16 % 16) rest).2).1)).2)

/-- The message object produced by `CoapClient.parseMessage` (the derived
`codeClass`/`codeDetail`/`codeString` fields are functions of `code` and are
omitted). -/
structure PMessage where
  version : Nat
  ty : Nat
  tokenLength : Nat
  code : Nat
  messageId : Nat
  token : List Nat
  options : List COption
  payload : Option (List Nat)
deriving DecidableEq, Repr

/-- `CoapClient.parseMessage`. -/
def parseMessage (data : List Nat) : PMessage :=
  let b0 := data.getD 0 0
  let tkl := b0 % 16
  let afterHeader := data.drop 4
  let token := afterHeader.take tkl
  let afterTok := afterHeader.drop tkl
  let optRes := parseOptionsLoop afterTok.length 0 afterTok
  { version := b0 / 64 % 4
    ty := b0 / 16 % 4
    tokenLength := tkl
    code := data.getD 1 0
    messageId := (data.getD 2 0) * 256 + data.getD 3 0
    token := token
    options := optRes.1
    payload :=
      match optRes.2 with
      | m :: p => if m = 0xFF then some p else none
      | [] => none }

theorem encNib_fst_le (x : Nat) : (encNib x).1 ≤ 14 := by
  unfold encNib; split_ifs <;> simp <;> omega

theorem encNib_snd_lt (x : Nat) (hx : x ≤ 65804) : ∀ b ∈ (encNib x).2, b < 256 := by
  unfold encNib; split_ifs <;> intro b hb <;> simp at hb <;> omega

theorem decodeNibExt_encNib (x : Nat) (hx : x ≤ 65804) (rest : List Nat) :
    decodeNibExt (encNib x).1 ((encNib x).2 ++ rest) = (x, rest) := by
  by_cases h1 : x < 13
  · have henc : encNib x = (x, []) := by simp [encNib, h1]
    have h13 : x ≠ 13 := by omega
    have h14 : x ≠ 14 := by omega
    rw [henc]
    simp [decodeNibExt, h13, h14]
  by_cases h2 : x < 269
  · have henc : encNib x = (13, [x - 13]) := by simp [encNib, h1, h2]
    have harith : x - 13 + 13 = x := by omega
    rw [henc]
    simp [decodeNibExt, harith]
  · have henc : encNib x = (14, [(x - 269) / 256, (x - 269) % 256]) := by
      simp [encNib, h1, h2]
    have harith : (x - 269) / 256 * 256 + (x - 269) % 256 + 269 = x := by omega
    rw [henc]
    simp [decodeNibExt, harith]

/-- Parsing one encoded option consumes exactly its bytes and recovers its
number and value. -/
theorem parseOptionsLoop_cons (f prev onum : Nat) (oval : List Nat) (Z : List Nat)
    (hprev : prev ≤ onum) (hnum : onum ≤ 65804) (hval : oval.length ≤ 65804) :
    parseOptionsLoop (f + 1) prev (encodeOption (onum - prev) oval ++ Z) =
      ((⟨onum, oval⟩ : COption) :: (parseOptionsLoop f onum Z).1,
       (parseOptionsLoop f onum Z).2) := by
  set d := onum - prev with hd
  have hdle : d ≤ 65804 := by omega
  set dn := (encNib d).1 with hdn
  set ln := (encNib oval.length).1 with hln
  have hdn14 : dn ≤ 14 := by rw [hdn]; exact encNib_fst_le d
  have hln14 : ln ≤ 14 := by rw [hln]; exact encNib_fst_le oval.length
  have hne : ¬ dn * 16 + ln = 0xFF := by omega
  have hdq : (dn * 16 + ln) / 16 % 16 = dn := by omega
  have hdm : (dn * 16 + ln) % 16 = ln := by omega
  have hdn15 : ¬ dn = 15 := by omega
  have hln15 : ¬ ln = 15 := by omega
  have hlist : encodeOption d oval ++ Z =
      (dn * 16 + ln) :: ((encNib d).2 ++ ((encNib oval.length).2 ++ (oval ++ Z))) := by
    simp [encodeOption, List.append_assoc]
  rw [hlist]
  simp only [parseOptionsLoop]
  rw [if_neg hne]
  simp only [hdq, hdm]
  rw [if_neg hdn15, if_neg hln15]
  rw [hdn, hln]
  simp [decodeNibExt_encNib d hdle, decodeNibExt_encNib oval.length hval,
    List.take_left, List.drop_left, show prev + d = onum by omega]

theorem encodeOptionsFrom_length_ge (prev : Nat) (opts : List COption) :
    opts.length ≤ (encodeOptionsFrom prev opts).length := by
  induction opts generalizing prev with
  | nil => simp [encodeOptionsFrom]
  | cons o rest ih =>
    simp only [encodeOptionsFrom, encodeOption, List.length_append, List.length_cons]
    have := ih o.number
    omega

/-- Parsing the encoded option section recovers the option list, leaving the
trailing bytes (empty, or a payload-marker block) unconsumed. -/
theorem parseOptionsLoop_encode (opts : List COption) :
    ∀ (fuel prev : Nat) (tail : List Nat),
    opts.length ≤ fuel →
    List.Chain (fun a b => a ≤ b) prev (opts.map COption.number) →
    (∀ o ∈ opts, o.number ≤ 65804 ∧ o.value.length ≤ 65804) →
    (tail = [] ∨ ∃ p, tail = 0xFF :: p) →
    parseOptionsLoop fuel prev (encodeOptionsFrom prev opts ++ tail) = (opts, tail) := by
  induction opts with
  | nil =>
    intro fuel prev tail _ _ _ htail
    rcases htail with rfl | ⟨p, rfl⟩ <;> cases fuel <;> simp [encodeOptionsFrom, parseOptionsLoop]
  | cons o rest ih =>
    intro fuel prev tail hfuel hchain hmem htail
    obtain ⟨f, rfl⟩ : ∃ f, fuel = f + 1 := ⟨fuel - 1, by simp at hfuel; omega⟩
    rw [List.map_cons, List.chain_cons] at hchain
    have hb := hmem o (List.mem_cons_self o rest)
    have hstep := parseOptionsLoop_cons f prev o.number o.value
      (encodeOptionsFrom o.number rest ++ tail) hchain.1 hb.1 hb.2
    have hrec := ih f o.number tail (by simp at hfuel; omega) hchain.2
      (fun x hx => hmem x (List.mem_cons_of_mem o hx)) htail
    calc parseOptionsLoop (f + 1) prev (encodeOptionsFrom prev (o :: rest) ++ tail)
        = parseOptionsLoop (f + 1) prev
            (encodeOption (o.number - prev) o.value ++ (encodeOptionsFrom o.number rest ++ tail)) := by
          simp [encodeOptionsFrom, List.append_assoc]
      _ = ((⟨o.number, o.value⟩ : COption) ::
            (parseOptionsLoop f o.number (encodeOptionsFrom o.number rest ++ tail)).1,
           (parseOptionsLoop f o.number (encodeOptionsFrom o.number rest ++ tail)).2) := hstep
      _ = (o :: rest, tail) := by rw [hrec]

theorem mem_insertByNumber (a o : COption) (l : List COption) :
    a ∈ insertByNumber o l ↔ a = o ∨ a ∈ l := by
  induction l with
  | nil => simp [insertByNumber]
  | cons x xs ih =>
    simp only [insertByNumber]
    split_ifs <;> simp [ih] <;> tauto

theorem mem_sortOptions (a : COption) (l : List COption) :
    a ∈ sortOptions l ↔ a ∈ l := by
  suffices h : ∀ acc, a ∈ l.foldl (fun acc o => insertByNumber o acc) acc ↔ a ∈ acc ∨ a ∈ l by
    simpa [sortOptions] using h []
  induction l with
  | nil => intro acc; simp
  | cons o rest ih =>
    intro acc
    simp only [List.foldl_cons, ih, mem_insertByNumber, List.mem_cons]
    tauto

theorem insertByNumber_sorted (o : COption) (l : List COption)
    (hl : List.Sorted (fun a b : COption => a.number ≤ b.number) l) :
    List.Sorted (fun a b : COption => a.number ≤ b.number) (insertByNumber o l) := by
  induction l with
  | nil => simp [insertByNumber]
  | cons x xs ih =>
    rw [List.sorted_cons] at hl
    by_cases h : o.number < x.number
    · rw [insertByNumber, if_pos h, List.sorted_cons]
      refine ⟨?_, by rw [List.sorted_cons]; exact hl⟩
      intro b hb
      rcases List.mem_cons.1 hb with rfl | hb
      · omega
      · have := hl.1 b hb; omega
    · rw [insertByNumber, if_neg h, List.sorted_cons]
      refine ⟨?_, ih hl.2⟩
      intro b hb
      rcases (mem_insertByNumber b o xs).1 hb with rfl | hb
      · omega
      · exact hl.1 b hb

theorem sortOptions_sorted (l : List COption) :
    List.Sorted (fun a b : COption => a.number ≤ b.number) (sortOptions l) := by
  suffices h : ∀ acc, List.Sorted (fun a b : COption => a.number ≤ b.number) acc →
      List.Sorted (fun a b : COption => a.number ≤ b.number)
        (l.foldl (fun acc o => insertByNumber o acc) acc) by
    exact h [] (by simp)
  induction l with
  | nil => intro acc hacc; simpa using hacc
  | cons o rest ih =>
    intro acc hacc
    exact ih (insertByNumber o acc) (insertByNumber_sorted o acc hacc)

theorem insertByNumber_filter (o : COption) (l : List COption) (k : Nat)
    (hl : List.Sorted (fun a b : COption => a.number ≤ b.number) l) :
    (insertByNumber o l).filter (fun x => x.number == k) =
      if o.number = k then l.filter (fun x => x.number == k) ++ [o]
      else l.filter (fun x => x.number == k) := by
  induction l with
  | nil =>
    by_cases ho : o.number = k <;>
      simp [insertByNumber, List.filter_cons, beq_iff_eq, ho]
  | cons x xs ih =>
    rw [List.sorted_cons] at hl
    by_cases h : o.number < x.number
    · rw [insertByNumber, if_pos h]
      by_cases ho : o.number = k
      · have hnil : (x :: xs).filter (fun y => y.number == k) = [] := by
          rw [List.filter_eq_nil_iff]
          intro a ha
          rcases List.mem_cons.1 ha with rfl | ha
          · simp only [beq_iff_eq]; omega
          · have := hl.1 a ha; simp only [beq_iff_eq]; omega
        simp [List.filter_cons, beq_iff_eq, ho, hnil]
      · simp [List.filter_cons, beq_iff_eq, ho]
    · rw [insertByNumber, if_neg h]
      rw [List.filter_cons, List.filter_cons]
      by_cases hx : x.number = k
      · by_cases ho : o.number = k <;>
          simp [beq_iff_eq, hx, ih hl.2, ho]
      · by_cases ho : o.number = k <;>
          simp [beq_iff_eq, hx, ih hl.2, ho]

theorem sortOptions_filter (l : List COption) (k : Nat) :
    (sortOptions l).filter (fun x => x.number == k) =
      l.filter (fun x => x.number == k) := by
  suffices h : ∀ acc, List.Sorted (fun a b : COption => a.number ≤ b.number) acc →
      (l.foldl (fun acc o => insertByNumber o acc) acc).filter (fun x => x.number == k) =
        acc.filter (fun x => x.number == k) ++ l.filter (fun x => x.number == k) by
    simpa [sortOptions] using h [] (by simp)
  induction l with
  | nil => intro acc _; simp
  | cons o rest ih =>
    intro acc hacc
    rw [List.foldl_cons, ih (insertByNumber o acc) (insertByNumber_sorted o acc hacc),
      insertByNumber_filter o acc k hacc, List.filter_cons]
    by_cases ho : o.number = k <;> simp [ho]

theorem mapMod_eq_self (l : List Nat) (h : ∀ b ∈ l, b < 256) :
    l.map (· % 256) = l := by
  induction l with
  | nil => simp
  | cons b rest ih =>
    simp only [List.map_cons, List.cons.injEq]
    exact ⟨Nat.mod_eq_of_lt (h b (by simp)), ih fun x hx => h x (by simp [hx])⟩

theorem chain_zero_of_sorted (l : List COption)
    (hs : List.Sorted (fun a b : COption => a.number ≤ b.number) l) :
    List.Chain (fun a b => a ≤ b) 0 (l.map COption.number) := by
  rw [List.chain_iff_pairwise, List.pairwise_cons]
  refine ⟨fun b _ => Nat.zero_le b, ?_⟩
  rw [List.pairwise_map]
  exact hs

/-- Parsing the raw encoded message (header, token, sorted options, trailing
payload block) recovers every field. -/
theorem parseMessage_createMessageRaw (ty code mid : Nat) (token : List Nat)
    (options : List COption) (pp : List Nat)
    (hty : ty < 4) (hmid : mid < 65536) (htkl : token.length < 16)
    (hnum : ∀ o ∈ options, o.number ≤ 65804)
    (hvlen : ∀ o ∈ options, o.value.length ≤ 65804)
    (htail : pp = [] ∨ ∃ p, pp = 0xFF :: p) :
    parseMessage ([64 + ty * 16 + token.length, code, mid / 256 % 256, mid % 256] ++
        (token ++ (encodeOptionsFrom 0 (sortOptions options) ++ pp))) =
      ⟨1, ty, token.length, code, mid, token, sortOptions options,
        match pp with
        | m :: p => if m = 0xFF then some p else none
        | [] => none⟩ := by
  set sorted := sortOptions options with hsorted
  set enc := encodeOptionsFrom 0 sorted with hencEq
  set b0 := 64 + ty * 16 + token.length with hb0
  have hver : b0 / 64 % 4 = 1 := by omega
  have htyx : b0 / 16 % 4 = ty := by omega
  have htk : b0 % 16 = token.length := by omega
  have hmid2 : mid / 256 % 256 * 256 + mid % 256 = mid := by omega
  have hmemS : ∀ o ∈ sorted, o.number ≤ 65804 ∧ o.value.length ≤ 65804 := by
    intro o ho
    have hmo := (mem_sortOptions o options).1 (by rw [← hsorted]; exact ho)
    exact ⟨hnum o hmo, hvlen o hmo⟩
  have hchain := chain_zero_of_sorted sorted (by rw [hsorted]; exact sortOptions_sorted options)
  have hfuel : sorted.length ≤ (enc ++ pp).length := by
    have := encodeOptionsFrom_length_ge 0 sorted
    rw [hencEq]
    simp only [List.length_append]
    omega
  have hopts := parseOptionsLoop_encode sorted ((enc ++ pp).length) 0 pp hfuel hchain
    hmemS htail
  rw [← hencEq] at hopts
  have hdata : ([b0, code, mid / 256 % 256, mid % 256] ++
      (token ++ (enc ++ pp))) = b0 :: code :: (mid / 256 % 256) :: (mid % 256) ::
        (token ++ (enc ++ pp)) := by simp
  rw [hdata]
  simp only [parseMessage, List.getD_cons_zero, List.getD_cons_succ,
    List.drop_succ_cons, List.drop_zero]
  rw [htk, List.take_left, List.drop_left, hopts]
  simp only [hver, htyx, hmid2]
  rcases htail with rfl | ⟨p, rfl⟩ <;> simp

theorem encodeOptionsFrom_bytes_lt (opts : List COption) :
    ∀ prev : Nat,
    (∀ o ∈ opts, o.number ≤ 65804 ∧ o.value.length ≤ 65804 ∧ ∀ b ∈ o.value, b < 256) →
    ∀ b ∈ encodeOptionsFrom prev opts, b < 256 := by
  induction opts with
  | nil => intro prev _ b hb; simp [encodeOptionsFrom] at hb
  | cons o rest ih =>
    intro prev hmem b hb
    have ho := hmem o (List.mem_cons_self o rest)
    simp only [encodeOptionsFrom, List.mem_append] at hb
    rcases hb with hb | hb
    · simp only [encodeOption, List.mem_cons, List.mem_append] at hb
      rcases hb with rfl | hb | hb | hb
      · have h1 := encNib_fst_le (o.number - prev)
        have h2 := encNib_fst_le o.value.length
        omega
      · exact encNib_snd_lt (o.number - prev) (by omega) b hb
      · exact encNib_snd_lt o.value.length ho.2.1 b hb
      · exact ho.2.2 b hb
    · exact ih o.number (fun x hx => hmem x (List.mem_cons_of_mem o hx)) b hb

theorem createMessageRaw_bytes_lt (ty code mid : Nat) (token : List Nat)
    (options : List COption) (payload : Option (List Nat))
    (hty : ty < 4) (hcode : code < 256) (htkl : token.length < 16)
    (htokb : ∀ b ∈ token, b < 256)
    (hnum : ∀ o ∈ options, o.number ≤ 65804)
    (hvlen : ∀ o ∈ options, o.value.length ≤ 65804)
    (hvb : ∀ o ∈ options, ∀ b ∈ o.value, b < 256)
    (hpayb : ∀ p, payload = some p → ∀ b ∈ p, b < 256) :
    ∀ b ∈ createMessageRaw ty code mid token options payload, b < 256 := by
  intro b hb
  have hmemS : ∀ o ∈ sortOptions options,
      o.number ≤ 65804 ∧ o.value.length ≤ 65804 ∧ ∀ x ∈ o.value, x < 256 := by
    intro o ho
    have hmo := (mem_sortOptions o options).1 ho
    exact ⟨hnum o hmo, hvlen o hmo, hvb o hmo⟩
  simp only [createMessageRaw, List.mem_append, List.mem_cons,
    List.not_mem_nil, or_false] at hb
  rcases hb with (rfl | rfl | rfl | rfl) | hb | hb | hb
  · omega
  · exact hcode
  · exact Nat.mod_lt _ (by norm_num)
  · exact Nat.mod_lt _ (by norm_num)
  · exact htokb b hb
  · exact encodeOptionsFrom_bytes_lt (sortOptions options) 0 hmemS b hb
  · cases payload with
    | none => simp at hb
    | some p =>
      have hp := hpayb p rfl
      by_cases hl : p.length > 0
      · simp only [hl, if_pos, List.mem_cons] at hb
        rcases hb with rfl | hb
        · norm_num
        · exact hp b hb
      · simp [hl] at hb

/-- C6 (amended).  A CoAP message built by `CoapClient.createMessage` with a
null or non-empty payload parses back (`CoapClient.parseMessage`) to the same
version, type, token, code, message id and payload, with the options sorted
ascending by option number and options of equal number in their original
relative order.  (An *empty* payload array does not survive: the encoder
emits no `0xFF` marker for it and the decoder returns a null payload — that
case is the counterexample below.) -/
theorem coap_message_roundtrip (ty code mid : Nat) (token : List Nat)
    (options : List COption) (payload : Option (List Nat))
    (hty : ty < 4) (hcode : code < 256) (hmid : mid < 65536)
    (htkl : token.length < 16) (htokb : ∀ b ∈ token, b < 256)
    (hnum : ∀ o ∈ options, o.number ≤ 65804)
    (hvlen : ∀ o ∈ options, o.value.length ≤ 65804)
    (hvb : ∀ o ∈ options, ∀ b ∈ o.value, b < 256)
    (hpay : ∀ p, payload = some p → p ≠ [] ∧ ∀ b ∈ p, b < 256) :
    parseMessage (createMessage ty code mid token options payload) =
      ⟨1, ty, token.length, code, mid, token, sortOptions options, payload⟩ ∧
    List.Sorted (fun a b : COption => a.number ≤ b.number)
      (parseMessage (createMessage ty code mid token options payload)).options ∧
    ∀ k, ((parseMessage (createMessage ty code mid token options payload)).options.filter
        (fun o => o.number == k)) = options.filter (fun o => o.number == k) := by
  have hmask : createMessage ty code mid token options payload =
      createMessageRaw ty code mid token options payload :=
    mapMod_eq_self _ (createMessageRaw_bytes_lt ty code mid token options payload
      hty hcode htkl htokb hnum hvlen hvb (fun p hp => (hpay p hp).2))
  have hmain : parseMessage (createMessage ty code mid token options payload) =
      ⟨1, ty, token.length, code, mid, token, sortOptions options, payload⟩ := by
    rw [hmask]
    cases payload with
    | none =>
      have := parseMessage_createMessageRaw ty code mid token options []
        hty hmid htkl hnum hvlen (Or.inl rfl)
      simpa [createMessageRaw] using this
    | some p =>
      have hpl : p.length > 0 := by
        have := (hpay p rfl).1
        cases p with
        | nil => simp at this
        | cons a t => simp
      have := parseMessage_createMessageRaw ty code mid token options (0xFF :: p)
        hty hmid htkl hnum hvlen (Or.inr ⟨p, rfl⟩)
      simp only [createMessageRaw, hpl, if_pos] at this ⊢
      simpa using this
  refine ⟨hmain, ?_, ?_⟩
  · rw [hmain]
    exact sortOptions_sorted options
  · intro k
    rw [hmain]
    exact sortOptions_filter options k

/-- Witness for `coap_message_roundtrip`: a CON GET with token `[0xAA]`, the
options Content-Format(12) and Uri-Path(11) given out of order, and payload
`[1, 2]`. -/
theorem coap_message_roundtrip_witness :
    parseMessage (createMessage 0 1 0x1234 [0xAA]
        [⟨12, [60]⟩, ⟨11, [0x61]⟩] (some [1, 2])) =
      ⟨1, 0, 1, 1, 0x1234, [0xAA], sortOptions [⟨12, [60]⟩, ⟨11, [0x61]⟩], some [1, 2]⟩ ∧
    List.Sorted (fun a b : COption => a.number ≤ b.number)
      (parseMessage (createMessage 0 1 0x1234 [0xAA]
        [⟨12, [60]⟩, ⟨11, [0x61]⟩] (some [1, 2]))).options ∧
    ∀ k, ((parseMessage (createMessage 0 1 0x1234 [0xAA]
        [⟨12, [60]⟩, ⟨11, [0x61]⟩] (some [1, 2]))).options.filter
        (fun o => o.number == k)) = [⟨12, [60]⟩, ⟨11, [0x61]⟩].filter
          (fun o : COption => o.number == k) :=
  coap_message_roundtrip 0 1 0x1234 [0xAA] [⟨12, [60]⟩, ⟨11, [0x61]⟩] (some [1, 2])
    (by decide) (by decide) (by decide) (by decide) (by decide)
    (by decide) (by decide) (by decide)
    (fun p hp => by
      cases hp
      exact ⟨by decide, by decide⟩)

/-- C6 (counterexample).  A message built with an *empty* (but non-null)
payload decodes with a null payload: `decode(encode(m)) ≠ m` for
`m = (CON, GET, mid 7, token [1], no options, payload [])`. -/
theorem coap_message_roundtrip_cex :
    (parseMessage (createMessage 0 1 7 [1] [] (some []))).payload = none ∧
    some ([] : List Nat) ≠ none := by decide

end CC

namespace ACoap

/-- `AdvancedCoAPClient` constants. -/
def DEFAULT_BLOCK_SIZE : Nat := 256
def RETRANSMIT_TIME_SEC : Nat := 3
def MAX_RETRANSMIT : Nat := 5
def OPT_BLOCK2 : Nat := 23
def OPT_BLOCK1 : Nat := 27

/-- A decoded block option `{num, more, blockSize}`. -/
structure BlockOpt where
  num : Nat
  more : Bool
  blockSize : Nat
deriving DecidableEq, Repr

/-- `AdvancedCoAPClient.decodeBlockOption`: big-endian accumulate, then
`szx = value & 7`, `more = value & 8`, `num = value >> 4`,
`blockSize = 2^(szx+4)`. -/
def decodeBlockOption (bytes : List Nat) : BlockOpt :=
  let value := bytes.foldl (fun v b => v * 256 + b) 0
  ⟨value / 16, value / 8 % 2 = 1, 2 ^ (value % 8 + 4)⟩

/-- `AdvancedCoAPClient.encodeBlockOption`: SZX from the block size,
`value = (num << 4) | (more ? 8 : 0) | szx`, emitted as a 0–3 byte
big-endian integer. -/
def encodeBlockOption (num : Nat) (more : Bool) (blockSize : Nat) : List Nat :=
  let szx : Nat :=
    if blockSize = 16 then 0 else if blockSize = 32 then 1
    else if blockSize = 64 then 2 else if blockSize = 128 then 3
    else if blockSize = 256 then 4 else if blockSize = 512 then 5
    else if blockSize = 1024 then 6 else 4
  let value := num * 16 + (if more then 8 else 0) + szx
  if value = 0 then []
  else if value < 256 then [value]
  else if value < 65536 then [value / 256 % 256, value % 256]
  else [value / 65536 % 256, value / 256 % 256, value % 256]

/-- The mutable per-request state of `AdvancedCoAPClient`
(`handleBlockWiseTransfer`'s `request` object; the fields `method`, `path`,
`payload`, `options` play no role in the verified paths).  A `none` entry in
`responseBlocks` is a JavaScript array hole. -/
structure ReqState where
  requestBlockNum : Nat
  requestBlockAcked : Int
  responseBlocks : List (Option (List Nat))
  responseMore : Bool
  retryCount : Nat
  totalBlocks : Option Nat
deriving DecidableEq, Repr

/-- The request state as initialised by `handleBlockWiseTransfer` (for a
request without a Block1-chunked body). -/
def reqInit : ReqState := ⟨0, -1, [], true, 0, none⟩

/-- The parsed response fields `processResponse` consults.  `options` maps an
option number to the list of its values. -/
structure CoapResponse where
  messageId : Nat
  token : Option (List Nat)
  codeClass : Nat
  codeDetail : Nat
  options : List (Nat × List (List Nat))
  payload : Option (List Nat)
deriving DecidableEq, Repr

/-- `response.options[n]` (presence of the option number). -/
def getOpt (opts : List (Nat × List (List Nat))) (n : Nat) : Option (List (List Nat)) :=
  (opts.find? (fun e => e.1 == n)).map (·.2)

/-- The observable outcome of `processResponse`: message dropped (no pending
request), exchange rejected with a CoAP error, a follow-up block request
issued (`sendNextBlock`, carrying `Block2.num = responseBlocks.length`), or
the exchange resolved with the combined payload. -/
inductive Action where
  | drop
  | reject (codeClass codeDetail : Nat)
  | sendNext (block2num : Nat)
  | resolve (payload : Option (List Nat))
deriving DecidableEq, Repr

/-- `this.activeRequests.get(messageId)` over the registry modelled as an
association list keyed by message id. -/
def findReq (active : List (Nat × ReqState)) (mid : Nat) : Option ReqState :=
  (active.find? (fun e => e.1 == mid)).map (·.2)

/-- `this.activeRequests.delete(messageId)`. -/
def removeReq (active : List (Nat × ReqState)) (mid : Nat) : List (Nat × ReqState) :=
  active.filter (fun e => e.1 != mid)

/-- In-place mutation of the request object held in the registry. -/
def updateReq (active : List (Nat × ReqState)) (mid : Nat) (r : ReqState) :
    List (Nat × ReqState) :=
  active.map (fun e => if e.1 == mid then (e.1, r) else e)

/-- JavaScript sparse-array assignment `blocks[i] = x`: set in place, or
extend with holes. -/
def setAt (l : List (Option (List Nat))) (i : Nat) (x : List Nat) :
    List (Option (List Nat)) :=
  if i < l.length then l.set i (some x)
  else l ++ List.replicate (i - l.length) none ++ [some x]

/-- `AdvancedCoAPClient.combineBlocks`: concatenate the blocks in index
order.  A hole (`none`) makes the source throw (`block.length` of
`undefined`), modelled as `none`. -/
def combineBlocks : List (Option (List Nat)) → Option (List Nat)
  | [] => some []
  | none :: _ => none
  | some b :: rest => (combineBlocks rest).map (fun t => b ++ t)

/-- The Block2 / single-payload tail of `AdvancedCoAPClient.processResponse`
(after the error check and the Block1 branch): store the block, request the
next one while `M = 1`, otherwise combine and resolve. -/
def processBlock2 (active : List (Nat × ReqState)) (r : CoapResponse)
    (req1 : ReqState) : List (Nat × ReqState) × Action :=
  match getOpt r.options OPT_BLOCK2 with
  | some vals =>
    let block2 := decodeBlockOption (vals.headD [])
    let req2 :=
      match r.payload with
      | some p => { req1 with responseBlocks := setAt req1.responseBlocks block2.num p }
      | none => req1
    if block2.more then
      (updateReq active r.messageId req2, .sendNext req2.responseBlocks.length)
    else
      (removeReq active r.messageId, .resolve (combineBlocks req2.responseBlocks))
  | none =>
    let req2 :=
      match r.payload with
      | some p => { req1 with responseBlocks := setAt req1.responseBlocks 0 p }
      | none => req1
    (removeReq active r.messageId, .resolve (combineBlocks req2.responseBlocks))

/-- `AdvancedCoAPClient.processResponse`: look up the pending request by the
**message id** of the response; if none, log and drop.  Otherwise reject on
4.xx/5.xx, advance Block1 if more request blocks remain, else fall through to
the Block2 tail. -/
def processResponse (active : List (Nat × ReqState)) (r : CoapResponse) :
    List (Nat × ReqState) × Action :=
  match findReq active r.messageId with
  | none => (active, .drop)
  | some req =>
    if r.codeClass = 4 ∨ r.codeClass = 5 then
      (removeReq active r.messageId, .reject r.codeClass r.codeDetail)
    else
      match getOpt r.options OPT_BLOCK1 with
      | some vals =>
        let block1 := decodeBlockOption (vals.headD [])
        let req1 := { req with requestBlockAcked := (block1.num : Int) }
        match req1.totalBlocks with
        | some tb =>
          if req1.requestBlockNum < tb - 1 then
            let req2 := { req1 with requestBlockNum := req1.requestBlockNum + 1 }
            (updateReq active r.messageId req2, .sendNext req2.responseBlocks.length)
          else processBlock2 active r req1
        | none => processBlock2 active r req1
      | none => processBlock2 active r req

/-- `AdvancedCoAPClient.handleTimeout` on a request whose ACK never arrives:
increment `retryCount`; at `MAX_RETRANSMIT` reject (`none`), otherwise
retransmit with the new count. -/
def handleTimeoutStep (retryCount : Nat) : Option Nat :=
  if retryCount + 1 ≥ MAX_RETRANSMIT then none else some (retryCount + 1)

/-- The no-ACK execution of the engine: each transmission (`sendNextBlock`)
at time `t` arms a timer for `t + RETRANSMIT_TIME_SEC`; when it fires,
`handleTimeoutStep` either retransmits at that instant or rejects.  Returns
the transmission times and the rejection time.  (Fuel bounds the recursion;
`MAX_RETRANSMIT` suffices.) -/
def conNoAckRun : Nat → Nat → Nat → List Nat × Nat
  | 0, t, _ => ([t], t + RETRANSMIT_TIME_SEC)
  | fuel + 1, t, rc =>
    match handleTimeoutStep rc with
    | none => ([t], t + RETRANSMIT_TIME_SEC)
    | some rc' =>
      (t :: (conNoAckRun fuel (t + RETRANSMIT_TIME_SEC) rc').1,
       (conNoAckRun fuel (t + RETRANSMIT_TIME_SEC) rc').2)

theorem processBlock2_ne_drop (active : List (Nat × ReqState)) (r : CoapResponse)
    (req1 : ReqState) : (processBlock2 active r req1).2 ≠ .drop := by
  rcases hgo : getOpt r.options OPT_BLOCK2 with _ | vals <;>
    simp only [processBlock2, hgo] <;>
    rcases hp : r.payload with _ | p <;>
    simp only [hp] <;>
    first
    | (split <;> simp)
    | simp

/-- C4 (amended).  The correlator of `AdvancedCoAPClient.processResponse`
looks the pending request up by the response's **message id**: when no entry
with that message id exists the message is logged and dropped (registry
unchanged); when one exists, the outcome is never a drop — the exchange is
rejected, advanced with a follow-up block request, or resolved. -/
theorem coap_correlator_by_messageId (active : List (Nat × ReqState))
    (r : CoapResponse) :
    (findReq active r.messageId = none → processResponse active r = (active, .drop)) ∧
    (∀ req, findReq active r.messageId = some req →
      (processResponse active r).2 ≠ .drop) := by
  constructor
  · intro hnone
    simp [processResponse, hnone]
  · intro req hsome
    simp only [processResponse, hsome]
    split
    · simp
    · rcases hgo : getOpt r.options OPT_BLOCK1 with _ | vals
      · simpa using processBlock2_ne_drop active r req
      · simp only []
        rcases htb : req.totalBlocks with _ | tb
      -- with requestBlockAcked updated, totalBlocks is unchanged
        · have : ({ req with requestBlockAcked :=
              ((decodeBlockOption (vals.headD [])).num : Int) } : ReqState).totalBlocks
              = none := htb
          simp only [this]
          simpa using processBlock2_ne_drop active r _
        · have : ({ req with requestBlockAcked :=
              ((decodeBlockOption (vals.headD [])).num : Int) } : ReqState).totalBlocks
              = some tb := htb
          simp only [this]
          split
          · simp
          · simpa using processBlock2_ne_drop active r _

/-- Witness for `coap_correlator_by_messageId`: with one pending request
keyed 5, a response with message id 6 is dropped and one with message id 5
is not. -/
theorem coap_correlator_by_messageId_witness :
    processResponse [(5, reqInit)] ⟨6, none, 2, 5, [], some [1]⟩ =
      ([(5, reqInit)], .drop) ∧
    (processResponse [(5, reqInit)] ⟨5, none, 2, 5, [], some [1]⟩).2 ≠ .drop :=
  ⟨(coap_correlator_by_messageId [(5, reqInit)] ⟨6, none, 2, 5, [], some [1]⟩).1
      (by decide),
   (coap_correlator_by_messageId [(5, reqInit)] ⟨5, none, 2, 5, [], some [1]⟩).2
      reqInit (by decide)⟩

/-- C4 (counterexample).  A pending request exists (and, since
`createRequest` never attaches a token, its token — like the response's — is
absent, so "a pending request with the response's token" exists), yet the
response is dropped: the lookup is keyed by message id, and the ids differ. -/
theorem coap_correlator_cex :
    processResponse [(5, reqInit)] ⟨6, none, 2, 5, [], some [1]⟩ =
      ([(5, reqInit)], .drop) ∧
    findReq [(5, reqInit)] 5 = some reqInit := by decide

/-- C5.  With `RETRANSMIT_TIME_SEC = 3` and `MAX_RETRANSMIT = 5`, a CON
request that never receives an ACK is transmitted at t = 0, 3, 6, 9, 12
seconds — five frames on the wire at a fixed 3-second interval — and the
exchange is rejected (`Request timeout after max retries`) at t = 15
seconds. -/
theorem coap_retransmit_timeline :
    conNoAckRun MAX_RETRANSMIT 0 0 = ([0, 3, 6, 9, 12], 15) ∧
    (conNoAckRun MAX_RETRANSMIT 0 0).1.length = MAX_RETRANSMIT ∧
    RETRANSMIT_TIME_SEC = 3 ∧ MAX_RETRANSMIT = 5 := by decide

def b0chunk : List Nat := List.replicate 256 0xAA
def b1chunk : List Nat := List.replicate 256 0xBB
def b2chunk : List Nat := List.replicate 64 0xCC

/-- A 2.05 response carrying one Block2 option value and a payload. -/
def blockResp (mid : Nat) (optByte : Nat) (p : List Nat) : CoapResponse :=
  ⟨mid, none, 2, 5, [(OPT_BLOCK2, [[optByte]])], some p⟩

set_option maxRecDepth 100000 in
/-- C7.  On a Block2 response delivered as `num=0,M=1`, `num=1,M=1`,
`num=2,M=0` with 256/256/64-byte chunks, the engine issues a follow-up
request after each `M=1` block (asking for block 1, then block 2) and on the
`M=0` block resolves the exchange with the 576-byte in-order concatenation,
removing the pending request.  The three option bytes are exactly what
`encodeBlockOption` produces for `(0,M,256)`, `(1,M,256)`, `(2,-,256)`. -/
theorem coap_blockwise_reassembly :
    (processResponse [(100, reqInit)] (blockResp 100 0x0C b0chunk)).2 =
        .sendNext 1 ∧
    (processResponse (processResponse [(100, reqInit)]
        (blockResp 100 0x0C b0chunk)).1 (blockResp 100 0x1C b1chunk)).2 =
        .sendNext 2 ∧
    processResponse (processResponse (processResponse [(100, reqInit)]
          (blockResp 100 0x0C b0chunk)).1 (blockResp 100 0x1C b1chunk)).1
        (blockResp 100 0x24 b2chunk) =
      ([], .resolve (some (b0chunk ++ (b1chunk ++ b2chunk)))) ∧
    (b0chunk ++ (b1chunk ++ b2chunk)).length = 576 ∧
    encodeBlockOption 0 true 256 = [0x0C] ∧
    encodeBlockOption 1 true 256 = [0x1C] ∧
    encodeBlockOption 2 false 256 = [0x24] := by decide

end ACoap

namespace CBORY

/-- The JavaScript values `CBORYANGCodec` encodes and decodes.  Numbers are
split into integers (`Number.isInteger`) and doubles; a double is carried as
its eight big-endian IEEE-754 bytes (its numeric value plays no role in the
verified paths).  `tagged` is the `{tag, value}` object the decoder builds
for CBOR tags.  Strings are Lean strings; `TextEncoder`/`TextDecoder` are
modelled for the ASCII strings the codec's SID table and the verified inputs
use. -/
inductive JSValue where
  | null
  | undefVal
  | bool (b : Bool)
  | int (n : Int)
  | float64 (bytes : List Nat)
  | str (s : String)
  | bytes (bs : List Nat)
  | arr (xs : List JSValue)
  | map (pairs : List (String × JSValue))
  | tagged (tag : Nat) (v : JSValue)

/-- `new TextEncoder().encode(s)` for ASCII strings: the code points. -/
def textEncode (s : String) : List Nat := s.toList.map Char.toNat

/-- `new TextDecoder().decode(bytes)` for ASCII byte lists. -/
def textDecode (l : List Nat) : String := String.mk (l.map Char.ofNat)

/-- The `KNOWN_SIDS` table of `CBORYANGCodec`, in source order. -/
def KNOWN_SIDS : List (String × Nat) :=
  [("/ietf-interfaces:interfaces", 1000),
   ("/ietf-interfaces:interfaces/interface", 1001),
   ("/ietf-interfaces:interfaces/interface/name", 1002),
   ("/ietf-interfaces:interfaces/interface/type", 1003),
   ("/ietf-interfaces:interfaces/interface/enabled", 1004),
   ("/ieee802-dot1q-bridge:bridges", 2000),
   ("/ieee802-dot1q-bridge:bridges/bridge", 2001),
   ("/ieee802-dot1q-bridge:bridges/bridge/name", 2002),
   ("/ieee802-dot1q-bridge:bridges/bridge/ports", 2003),
   ("/ieee1588-ptp:ptp", 3000),
   ("/ieee1588-ptp:ptp/instances", 3001),
   ("/ieee1588-ptp:ptp/instances/instance", 3002),
   ("/ieee1588-ptp:ptp/instances/instance/instance-index", 3003),
   ("/mchp-velocitysp-port:eth-port", 4000),
   ("/mchp-velocitysp-port:eth-qos", 4001),
   ("/mchp-velocitysp-ptp:automotive", 4002),
   ("/mchp-velocitysp-system:save-config", 4003),
   ("/ietf-constrained-yang-library:yang-library", 29300),
   ("/ietf-constrained-yang-library:yang-library/checksum", 29304)]

/-- `this.KNOWN_SIDS[key]` (every SID in the table is non-zero, so JavaScript
truthiness coincides with presence). -/
def lookupSID (key : String) : Option Nat :=
  (KNOWN_SIDS.find? (fun e => e.1 == key)).map (·.2)

/-- The reverse search of `decodeMap` over `Object.entries(KNOWN_SIDS)`:
first path whose SID equals the decoded key value. -/
def sidToPath (sid : Int) : Option String :=
  (KNOWN_SIDS.find? (fun e => (e.2 : Int) == sid)).map (·.1)

/-- `key.startsWith('/')`. -/
def startsWithSlash (s : String) : Bool :=
  match s.toList with
  | c :: _ => c == '/'
  | [] => false

/-- The 64-bit (additional info 27) branch of
`CBORYANGCodec.encodeUnsignedInt`: `high = Math.floor(value / 2^32)`,
`low = value % 2^32`, eight big-endian bytes via `>> k & 0xFF`. -/
def enc27 (value : Nat) : List Nat :=
  [27,
   value / 4294967296 / 16777216 % 256, value / 4294967296 / 65536 % 256,
   value / 4294967296 / 256 % 256, value / 4294967296 % 256,
   value % 4294967296 / 16777216 % 256, value % 4294967296 / 65536 % 256,
   value % 4294967296 / 256 % 256, value % 4294967296 % 256]

/-- `CBORYANGCodec.encodeUnsignedInt` (major type 0, so the header byte is
the additional info itself). -/
def encodeUnsignedInt (value : Nat) : List Nat :=
  if value < 24 then [value]
  else if value < 256 then [24, value]
  else if value < 65536 then [25, value / 256 % 256, value % 256]
  else if value < 4294967296 then
    [26, value / 16777216 % 256, value / 65536 % 256, value / 256 % 256, value % 256]
  else enc27 value

/-- `CBORYANGCodec.encodeNegativeInt` over the magnitude `-n - 1`: major
type 1 (`0x20`).  The `if` chain has **no** branch for `value ≥ 2^32`: such a
value pushes nothing and raises nothing. -/
def encodeNegativeInt (value : Nat) : List Nat :=
  if value < 24 then [0x20 + value]
  else if value < 256 then [0x20 + 24, value]
  else if value < 65536 then [0x20 + 25, value / 256 % 256, value % 256]
  else if value < 4294967296 then
    [0x20 + 26, value / 16777216 % 256, value / 65536 % 256, value / 256 % 256, value % 256]
  else []

/-- `CBORYANGCodec.encodeString` (major type 3). -/
def encodeString (s : String) : List Nat :=
  (if (textEncode s).length < 24 then [0x60 + (textEncode s).length]
   else if (textEncode s).length < 256 then [0x78, (textEncode s).length]
   else if (textEncode s).length < 65536 then
     [0x79, (textEncode s).length / 256 % 256, (textEncode s).length % 256]
   else
     [0x7A, (textEncode s).length / 16777216 % 256, (textEncode s).length / 65536 % 256,
      (textEncode s).length / 256 % 256, (textEncode s).length % 256]) ++ textEncode s

/-- `CBORYANGCodec.encodeByteString` (major type 2). -/
def encodeByteString (data : List Nat) : List Nat :=
  (if data.length < 24 then [0x40 + data.length]
   else if data.length < 256 then [0x58, data.length]
   else if data.length < 65536 then [0x59, data.length / 256 % 256, data.length % 256]
   else
     [0x5A, data.length / 16777216 % 256, data.length / 65536 % 256,
      data.length / 256 % 256, data.length % 256]) ++ data

/-- The length header of `CBORYANGCodec.encodeArray` — note the source has
no branch for 65536 or more entries (nothing is pushed). -/
def encodeArrayHeader (n : Nat) : List Nat :=
  if n < 24 then [0x80 + n]
  else if n < 256 then [0x98, n]
  else if n < 65536 then [0x99, n / 256 % 256, n % 256]
  else []

/-- The length header of `CBORYANGCodec.encodeMap` — the source's 2-byte
branch tests `< 65516` (sic), and there is no branch beyond it. -/
def encodeMapHeader (n : Nat) : List Nat :=
  if n < 24 then [0xA0 + n]
  else if n < 256 then [0xB8, n]
  else if n < 65516 then [0xB9, n / 256 % 256, n % 256]
  else []

/-- `CBORYANGCodec.encodeSID`: tag 256 (`D9 01 00`) followed by the SID in
`encodeUnsignedInt`'s minimum-length form. -/
def encodeSID (sid : Nat) : List Nat :=
  [0xD9, 0x01, 0x00] ++ encodeUnsignedInt sid

/-- A stable insertion of a key into a sorted key list (after equal keys);
folded over the key list this is the stable `keys.sort()` of
`CBORYANGCodec.encodeMap` (JavaScript's default lexicographic comparator). -/
def insertKey (s : String) : List String → List String
  | [] => [s]
  | x :: xs => if s < x then s :: x :: xs else x :: insertKey s xs

/-- `keys.sort()` of `CBORYANGCodec.encodeMap`. -/
def sortKeys (l : List String) : List String :=
  l.foldl (fun acc s => insertKey s acc) []

/-- `obj[key]` on the object modelled as an association list (a missing key
is JavaScript `undefined`). -/
def lookupKey (pairs : List (String × JSValue)) (k : String) : JSValue :=
  match (pairs.find? (fun e => e.1 == k)).map (·.2) with
  | some v => v
  | none => .undefVal

/-- `CBORYANGCodec.encodeValue` (and the bodies of `encodeArray` /
`encodeMap` it dispatches to), with fuel for the nested recursion; `none`
is never returned when the fuel exceeds the nesting depth.  A decoded
`{tag, value}` object re-entering the encoder takes the plain-object path
(`encodeMap` of its two properties), as in the source. -/
def encodeValue : Nat → JSValue → Option (List Nat)
  | 0, _ => none
  | fuel + 1, v =>
    match v with
    | .null => some [0xF6]
    | .undefVal => some [0xF6]
    | .bool false => some [0xF4]
    | .bool true => some [0xF5]
    | .int n =>
      if 0 ≤ n then some (encodeUnsignedInt n.toNat)
      else some (encodeNegativeInt (-n - 1).toNat)
    | .float64 bs => some (0xFB :: bs)
    | .str s => some (encodeString s)
    | .bytes bs => some (encodeByteString bs)
    | .arr xs =>
      (xs.foldr (fun x acc => do
          let h ← encodeValue fuel x
          let t ← acc
          pure (h ++ t)) (some [])).map (fun body => encodeArrayHeader xs.length ++ body)
    | .map pairs =>
      ((sortKeys (pairs.map Prod.fst)).foldr (fun k acc => do
          let kb := if startsWithSlash k && (lookupSID k).isSome
                    then encodeSID ((lookupSID k).getD 0)
                    else encodeString k
          let vb ← encodeValue fuel (lookupKey pairs k)
          let t ← acc
          pure (kb ++ (vb ++ t))) (some [])).map
        (fun body => encodeMapHeader (pairs.map Prod.fst).length ++ body)
    | .tagged t w => encodeValue fuel (.map [("tag", .int t), ("value", w)])

/-- The bit length of `m` (0 for 0), with structural fuel; `bitLen 64`
covers every value the decoder's accumulator can reach (below `2^61`). -/
def bitLen : Nat → Nat → Nat
  | 0, _ => 0
  | fuel + 1, m => if m = 0 then 0 else bitLen fuel (m / 2) + 1

/-- Round an integer to the nearest IEEE-754 binary64 value
(round-to-nearest, ties-to-even over a 53-bit significand); the identity
below `2^53`.  This is the rounding JavaScript applies to each
`value * 256 + byte` step of `decodeUnsignedInt`'s 64-bit branch (the
multiplication by 256 itself is exact on a representable value). -/
def jsRoundDouble (m : Nat) : Nat :=
  if m < 2 ^ 53 then m
  else
    let e := bitLen 64 m - 53
    let q := m / 2 ^ e
    let r := m % 2 ^ e
    let half := 2 ^ (e - 1)
    if r < half then q * 2 ^ e
    else if half < r then (q + 1) * 2 ^ e
    else if q % 2 = 0 then q * 2 ^ e else (q + 1) * 2 ^ e

/-- `CBORYANGCodec.decodeUnsignedInt`, value and remaining bytes.  Reads past
the end of the data are decode failures (`none`).  The 4-byte branch mirrors
the source's `(b << 24) | …`, whose `ToInt32` makes values with the top bit
set come out negative; the 8-byte branch accumulates `value * 256 + byte` in
doubles, hence the rounding. -/
def decodeUnsignedInt (bytes : List Nat) : Option (Int × List Nat) :=
  match bytes with
  | [] => none
  | b :: rest =>
    let ai := b % 32
    if ai < 24 then some ((ai : Int), rest)
    else if ai = 24 then
      match rest with
      | x :: r => some ((x : Int), r)
      | [] => none
    else if ai = 25 then
      match rest with
      | x :: y :: r => some (((x * 256 + y : Nat) : Int), r)
      | _ => none
    else if ai = 26 then
      match rest with
      | x :: y :: z :: w :: r =>
        some (if x * 16777216 + y * 65536 + z * 256 + w < 2 ^ 31
              then ((x * 16777216 + y * 65536 + z * 256 + w : Nat) : Int)
              else ((x * 16777216 + y * 65536 + z * 256 + w : Nat) : Int) - 2 ^ 32, r)
      | _ => none
    else if ai = 27 then
      match rest with
      | b1 :: b2 :: b3 :: b4 :: b5 :: b6 :: b7 :: b8 :: r =>
        some ((([b1, b2, b3, b4, b5, b6, b7, b8].foldl
            (fun v b => jsRoundDouble (v * 256 + b)) 0 : Nat) : Int), r)
      | _ => none
    else none

/-- `CBORYANGCodec.decodeLength`. -/
def decodeLength (bytes : List Nat) : Option (Nat × List Nat) :=
  match bytes with
  | [] => none
  | b :: rest =>
    let ai := b % 32
    if ai < 24 then some (ai, rest)
    else if ai = 24 then
      match rest with
      | x :: r => some (x, r)
      | [] => none
    else if ai = 25 then
      match rest with
      | x :: y :: r => some (x * 256 + y, r)
      | _ => none
    else if ai = 26 then
      match rest with
      | x :: y :: z :: w :: r => some (x * 16777216 + y * 65536 + z * 256 + w, r)
      | _ => none
    else none

/-- `CBORYANGCodec.decodeSimple` (the 64-bit float keeps its wire bytes). -/
def decodeSimple (bytes : List Nat) : Option (JSValue × List Nat) :=
  match bytes with
  | [] => none
  | b :: rest =>
    let ai := b % 32
    if ai = 20 then some (.bool false, rest)
    else if ai = 21 then some (.bool true, rest)
    else if ai = 22 then some (.null, rest)
    else if ai = 23 then some (.undefVal, rest)
    else if ai = 27 then
      match rest with
      | b1 :: b2 :: b3 :: b4 :: b5 :: b6 :: b7 :: b8 :: r =>
        some (.float64 [b1, b2, b3, b4, b5, b6, b7, b8], r)
      | _ => none
    else none

/-- JavaScript property-key coercion `String(key)` for the key shapes the
decoder can produce (aggregates take the generic object rendering). -/
def jsKeyString : JSValue → String
  | .str s => s
  | .int n => toString n
  | .null => "null"
  | .undefVal => "undefined"
  | .bool true => "true"
  | .bool false => "false"
  | _ => "[object Object]"

/-- The SID-key resolution of `CBORYANGCodec.decodeMap`: a tag-256 key is
looked up in the SID table and replaced by its path, falling back to
`SID:<value>`; every other key is coerced to a property key. -/
def resolveKey (k : JSValue) : String :=
  match k with
  | .tagged 256 kv =>
    (match kv with
     | .int sid =>
       (match sidToPath sid with
        | some path => path
        | none => "SID:" ++ toString sid)
     | other => "SID:" ++ jsKeyString other)
  | other => jsKeyString other

/-- `map[key] = value` on a JavaScript object: overwrite in place or append. -/
def setKey : List (String × JSValue) → String → JSValue → List (String × JSValue)
  | [], k, v => [(k, v)]
  | (k0, v0) :: rest, k, v =>
    if k0 == k then (k0, v) :: rest else (k0, v0) :: setKey rest k v

mutual

/-- `CBORYANGCodec.decodeValue`: dispatch on the major type.  `none` models a
thrown decode error (including reads past the end of the data).  The fuel
decreases structurally on every call (so the definitions evaluate in the
kernel); a fuel of input length + 1 always suffices, since each decrement
accompanies at least one consumed byte. -/
def decodeValue : Nat → List Nat → Option (JSValue × List Nat)
  | 0, _ => none
  | fuel + 1, bytes =>
    match bytes with
    | [] => none
    | b :: rest =>
      let major := b / 32 % 8
      if major = 0 then
        (decodeUnsignedInt (b :: rest)).map (fun p => (.int p.1, p.2))
      else if major = 1 then
        (decodeUnsignedInt (b :: rest)).map (fun p => (.int (-1 - p.1), p.2))
      else if major = 2 then
        match decodeLength (b :: rest) with
        | none => none
        | some (len, r) =>
          if len ≤ r.length then some (.bytes (r.take len), r.drop len) else none
      else if major = 3 then
        match decodeLength (b :: rest) with
        | none => none
        | some (len, r) =>
          if len ≤ r.length then some (.str (textDecode (r.take len)), r.drop len) else none
      else if major = 4 then
        match decodeLength (b :: rest) with
        | none => none
        | some (len, r) =>
          match decodeArrayItems fuel len r with
          | none => none
          | some (vs, r2) => some (.arr vs, r2)
      else if major = 5 then
        match decodeLength (b :: rest) with
        | none => none
        | some (len, r) =>
          match decodeMapItems fuel len r [] with
          | none => none
          | some (m, r2) => some (.map m, r2)
      else if major = 6 then
        match decodeUnsignedInt (b :: rest) with
        | none => none
        | some (tag, r) =>
          match decodeValue fuel r with
          | none => none
          | some (v, r2) => some (.tagged tag.toNat v, r2)
      else decodeSimple (b :: rest)
  termination_by structural fuel => fuel

/-- The element loop of `CBORYANGCodec.decodeArray`. -/
def decodeArrayItems : Nat → Nat → List Nat → Option (List JSValue × List Nat)
  | 0, _, _ => none
  | _ + 1, 0, r => some ([], r)
  | fuel + 1, n + 1, r =>
    match decodeValue fuel r with
    | none => none
    | some (v, r2) =>
      match decodeArrayItems fuel n r2 with
      | none => none
      | some (vs, r3) => some (v :: vs, r3)
  termination_by structural fuel => fuel

/-- The pair loop of `CBORYANGCodec.decodeMap`: decode key, decode value,
resolve SID keys, assign. -/
def decodeMapItems : Nat → Nat → List Nat → List (String × JSValue) →
    Option (List (String × JSValue) × List Nat)
  | 0, _, _, _ => none
  | _ + 1, 0, r, m => some (m, r)
  | fuel + 1, n + 1, r, m =>
    match decodeValue fuel r with
    | none => none
    | some (kv, r2) =>
      match decodeValue fuel r2 with
      | none => none
      | some (vv, r3) => decodeMapItems fuel n r3 (setKey m (resolveKey kv) vv)
  termination_by structural fuel => fuel

end

/-- `CBORYANGCodec.decode`: decode from the start and return the value.  A
fuel of input length + 1 always suffices: every fuel decrement accompanies at
least one consumed byte. -/
def decode (bytes : List Nat) : Option JSValue :=
  (decodeValue (bytes.length + 1) bytes).map (·.1)

/-- The YANG path whose SID-table entry is 1000. -/
def pathII : String := "/ietf-interfaces:interfaces"

/-- C8.  Encoding a one-entry map keyed by the known YANG path
`/ietf-interfaces:interfaces` substitutes the key through the SID table:
tag 256 (`D9 01 00`) followed by the integer 1000 in minimum-length form
(`19 03 E8`); an unknown key (here `"nope"`) is emitted as a text string;
and decoding the SID-keyed map resolves the key back to the textual path. -/
theorem cbor_sid_key_encoding :
    encodeValue 2 (.map [(pathII, .null)]) =
      some [0xA1, 0xD9, 0x01, 0x00, 0x19, 0x03, 0xE8, 0xF6] ∧
    lookupSID pathII = some 1000 ∧
    encodeUnsignedInt 1000 = [0x19, 0x03, 0xE8] ∧
    encodeValue 2 (.map [("nope", .null)]) =
      some [0xA1, 0x64, 0x6E, 0x6F, 0x70, 0x65, 0xF6] ∧
    decode [0xA1, 0xD9, 0x01, 0x00, 0x19, 0x03, 0xE8, 0xF6] =
      some (.map [(pathII, .null)]) :=
  ⟨by decide, by decide, by decide, by decide, rfl⟩

/-- Everything `jsRoundDouble` touches below `2^53` (inclusive) is returned
unchanged: these values are exactly representable in binary64. -/
theorem jsRoundDouble_eq_self (m : Nat) (hm : m ≤ 2 ^ 53) : jsRoundDouble m = m := by
  by_cases h1 : m < 2 ^ 53
  · unfold jsRoundDouble
    rw [if_pos h1]
  · have hm53 : m = 2 ^ 53 := by omega
    subst hm53
    decide

theorem decodeUnsignedInt_27 (b1 b2 b3 b4 b5 b6 b7 b8 : Nat) (r : List Nat) :
    decodeUnsignedInt (27 :: b1 :: b2 :: b3 :: b4 :: b5 :: b6 :: b7 :: b8 :: r) =
      some ((([b1, b2, b3, b4, b5, b6, b7, b8].foldl
          (fun v b => jsRoundDouble (v * 256 + b)) 0 : Nat) : Int), r) := by
  simp [decodeUnsignedInt]

/-- C9 (amended).  Decoding the 64-bit (additional info 27) CBOR encoding of
`n` yields exactly `n` whenever `n ≤ 2^53` — in that range every
intermediate value of the decoder's float accumulation is exactly
representable.  Beyond `2^53` the accumulation rounds (see the
counterexample). -/
theorem cbor_uint64_roundtrip (n : Nat) (h : n ≤ 2 ^ 53) :
    decodeUnsignedInt (enc27 n) = some ((n : Int), []) := by
  have hbytes : enc27 n =
      [27, n / 72057594037927936 % 256, n / 281474976710656 % 256,
       n / 1099511627776 % 256, n / 4294967296 % 256, n / 16777216 % 256,
       n / 65536 % 256, n / 256 % 256, n % 256] := by
    simp only [enc27, Nat.div_div_eq_div_mul, List.cons.injEq, and_true]
    norm_num
    omega
  rw [hbytes, decodeUnsignedInt_27]
  simp only [List.foldl_cons, List.foldl_nil]
  rw [show (0 : Nat) * 256 + n / 72057594037927936 % 256 = n / 72057594037927936 by omega,
    jsRoundDouble_eq_self (n / 72057594037927936) (by omega),
    show n / 72057594037927936 * 256 + n / 281474976710656 % 256 = n / 281474976710656 by omega,
    jsRoundDouble_eq_self (n / 281474976710656) (by omega),
    show n / 281474976710656 * 256 + n / 1099511627776 % 256 = n / 1099511627776 by omega,
    jsRoundDouble_eq_self (n / 1099511627776) (by omega),
    show n / 1099511627776 * 256 + n / 4294967296 % 256 = n / 4294967296 by omega,
    jsRoundDouble_eq_self (n / 4294967296) (by omega),
    show n / 4294967296 * 256 + n / 16777216 % 256 = n / 16777216 by omega,
    jsRoundDouble_eq_self (n / 16777216) (by omega),
    show n / 16777216 * 256 + n / 65536 % 256 = n / 65536 by omega,
    jsRoundDouble_eq_self (n / 65536) (by omega),
    show n / 65536 * 256 + n / 256 % 256 = n / 256 by omega,
    jsRoundDouble_eq_self (n / 256) (by omega),
    show n / 256 * 256 + n % 256 = n by omega,
    jsRoundDouble_eq_self n h]

/-- Witness for `cbor_uint64_roundtrip` at `n = 10^6`. -/
theorem cbor_uint64_roundtrip_witness :
    decodeUnsignedInt (enc27 1000000) = some (((1000000 : Nat) : Int), []) :=
  cbor_uint64_roundtrip 1000000 (by norm_num)

/-- C9 (counterexample).  Decoding the additional-info-27 encoding of
`2^53 + 1` yields `2^53`: the last accumulation step `2^53 * 256 / 256 …`
lands on `2^53 + 1`, which binary64 rounds (ties-to-even) down to `2^53` —
a silent truncation. -/
theorem cbor_uint64_cex :
    decodeUnsignedInt (enc27 (2 ^ 53 + 1)) = some (((2 ^ 53 : Nat) : Int), []) ∧
    ((2 ^ 53 : Nat) : Int) ≠ ((2 ^ 53 + 1 : Nat) : Int) := by decide

/-- C10.  For a negative integer whose magnitude `-n - 1` is at least
`2^32`, `encodeNegativeInt` has no matching branch: `encodeValue` appends no
bytes at all and raises nothing, so an enclosing array (header `0x81`) or map
(header `0xA1`, key `"k"`) is emitted with the element silently missing, and
decoding the truncated output fails (`none`, the source throws
`Unexpected end of CBOR data`) instead of restoring the input. -/
theorem cbor_negative_overflow (n : Int) (hneg : n < 0)
    (hbig : (2 ^ 32 : Int) ≤ -n - 1) :
    encodeNegativeInt (-n - 1).toNat = [] ∧
    (∀ fuel : Nat, encodeValue (fuel + 1) (.int n) = some []) ∧
    (∀ fuel : Nat, encodeValue (fuel + 2) (.arr [.int n]) = some [0x81]) ∧
    decode [0x81] = none ∧
    (∀ fuel : Nat, encodeValue (fuel + 2) (.map [("k", .int n)]) = some [0xA1, 0x61, 0x6B]) ∧
    decode [0xA1, 0x61, 0x6B] = none := by
  have hm : 4294967296 ≤ (-n - 1).toNat := by omega
  have henc : encodeNegativeInt (-n - 1).toNat = [] := by
    unfold encodeNegativeInt
    rw [if_neg (by omega), if_neg (by omega), if_neg (by omega), if_neg (by omega)]
  have hval : ∀ fuel : Nat, encodeValue (fuel + 1) (.int n) = some [] := by
    intro fuel
    simp only [encodeValue]
    rw [if_neg (by omega : ¬ (0 : Int) ≤ n), henc]
  refine ⟨henc, hval, ?_, rfl, ?_, rfl⟩
  · intro fuel
    have h1 : encodeValue (fuel + 2) (.arr [.int n]) =
        ((do
          let h ← encodeValue (fuel + 1) (JSValue.int n)
          let t ← (some ([] : List Nat))
          pure (h ++ t)).map (fun body => encodeArrayHeader 1 ++ body)) := rfl
    rw [h1, hval fuel]
    rfl
  · intro fuel
    have h2 : encodeValue (fuel + 2) (.map [("k", JSValue.int n)]) =
        ((do
          let vb ← encodeValue (fuel + 1) (JSValue.int n)
          let t ← (some ([] : List Nat))
          pure (encodeString "k" ++ (vb ++ t))).map
            (fun body => encodeMapHeader 1 ++ body)) := rfl
    rw [h2, hval fuel]
    rfl

/-- Witness for `cbor_negative_overflow` at `n = -(2^32) - 1`. -/
theorem cbor_negative_overflow_witness :
    encodeNegativeInt (-(-4294967297 : Int) - 1).toNat = [] ∧
    encodeValue 1 (.int (-4294967297 : Int)) = some [] :=
  ⟨(cbor_negative_overflow (-4294967297) (by decide) (by decide)).1,
   (cbor_negative_overflow (-4294967297) (by decide) (by decide)).2.1 0⟩

end CBORY
